import Mathlib

/-!
Verification development for the `kayak_render_macros` crate: the RSX
source-to-source transformer (render / rsx / constructor entry points),
the attribute binder, the post-order tree code generator, the `widget`
attribute macro and the `use_state` / `use_effect` hook macros.

The macro entry points are embedded from `src/kayak_render_macros/src/lib.rs`.
The parser, code-generator and hook-runtime modules referenced there
(`attribute.rs`, `widget_attributes.rs`, `widget.rs`, `children.rs`,
`use_effect.rs` and the `kayak_core` runtime) are not part of the visible
sources, so those components are modelled from the specification; each such
definition is marked `Modelled from the spec`.
-/

namespace KayakSpec

/-! ## Attribute model -/

/-- Modelled from the spec: an attribute value is a tagged variant over
literal expressions and event-handler expressions (the binder tags handlers
distinctly); host expressions are opaque and modelled as `Nat`
(`attribute.rs` is not under `src/`). -/
inductive AttrValue where
  | literal (e : Nat)
  | handler (e : Nat)
  deriving DecidableEq, Repr

/-- Modelled from the spec: an attribute-list entry is either a spread of a
record expression's fields or a literal/named attribute
(`widget_attributes.rs` is not under `src/`). -/
inductive AttrEntry where
  | spread (fields : List (String × AttrValue))
  | named (key : String) (value : AttrValue)
  deriving DecidableEq, Repr

/-- Ordered-map override: replace the first occurrence of the key, keeping
its position, or append the pair when the key is absent. -/
def setKey : List (String × AttrValue) → String → AttrValue → List (String × AttrValue)
  | [], k, v => [(k, v)]
  | (k', v') :: rest, k, v =>
      if k' = k then (k, v) :: rest else (k', v') :: setKey rest k v

/-- Lookup of a key in the ordered attribute map. -/
def lookupA (m : List (String × AttrValue)) (k : String) : Option AttrValue :=
  (m.find? (fun p => p.1 = k)).map (fun p => p.2)

/-- Modelled from the spec: all spread entries are expanded and merged first,
in encounter order, a key from a later spread overriding the same key from an
earlier spread. -/
def mergeSpreads : List AttrEntry → List (String × AttrValue) → List (String × AttrValue)
  | [], acc => acc
  | AttrEntry.spread fs :: rest, acc =>
      mergeSpreads rest (fs.foldl (fun a p => setKey a p.1 p.2) acc)
  | AttrEntry.named _ _ :: rest, acc => mergeSpreads rest acc

/-- Parse-time errors: malformed markup is a `SyntaxError` carrying the
offending span (modelled as the index of the offending attribute entry). -/
inductive ParseError where
  | syntaxError (span : Nat)
  deriving DecidableEq, Repr

/-- Modelled from the spec: literal/named attributes are applied on top of the
merged spreads, left to right; re-declaring a named key is a `SyntaxError`
reported at the offending entry. `i` is the index of the current entry and
`seen` the named keys already applied. -/
def applyNamed : List AttrEntry → Nat → List (String × AttrValue) → List String →
    Except ParseError (List (String × AttrValue))
  | [], _, acc, _ => Except.ok acc
  | AttrEntry.named k v :: rest, i, acc, seen =>
      if k ∈ seen then Except.error (ParseError.syntaxError i)
      else applyNamed rest (i + 1) (setKey acc k v) (k :: seen)
  | AttrEntry.spread _ :: rest, i, acc, _seen =>
      applyNamed rest (i + 1) acc _seen

/-- The attribute binder: merge every spread first, then apply the
literal/named attributes on top, detecting duplicate named keys. -/
def bindAttributes (es : List AttrEntry) : Except ParseError (List (String × AttrValue)) :=
  applyNamed es 0 (mergeSpreads es []) []

/-- First-some choice on options (used to state declarative lookups). -/
def oor : Option AttrValue → Option AttrValue → Option AttrValue
  | some v, _ => some v
  | none, b => b

/-- Declarative reading of a field list: the last field with the key wins. -/
def lastFieldValue : List (String × AttrValue) → String → Option AttrValue
  | [], _ => none
  | (k', v) :: rest, k =>
      oor (lastFieldValue rest k) (if k' = k then some v else none)

/-- Declarative reading of the spreads: the last spread supplying the key
wins, later spreads overriding earlier ones. -/
def lastSpreadValue : List AttrEntry → String → Option AttrValue
  | [], _ => none
  | AttrEntry.spread fs :: rest, k =>
      oor (lastSpreadValue rest k) (lastFieldValue fs k)
  | AttrEntry.named _ _ :: rest, k => lastSpreadValue rest k

/-- Declarative reading of the named attributes (unique when binding
succeeds). -/
def namedValue : List AttrEntry → String → Option AttrValue
  | [], _ => none
  | AttrEntry.named k' v :: rest, k =>
      if k' = k then some v else namedValue rest k
  | AttrEntry.spread _ :: rest, k => namedValue rest k

/-- The specification-side lookup: a named attribute overrides every spread;
otherwise the last spread supplying the key wins. -/
def specLookup (es : List AttrEntry) (k : String) : Option AttrValue :=
  oor (namedValue es k) (lastSpreadValue es k)

/-- The named keys of an attribute list, in order. -/
def namedKeys : List AttrEntry → List String
  | [] => []
  | AttrEntry.named k _ :: rest => k :: namedKeys rest
  | AttrEntry.spread _ :: rest => namedKeys rest

/-- Number of spread entries carried by an attribute list. -/
def spreadCount (es : List AttrEntry) : Nat :=
  es.countP (fun e => match e with | AttrEntry.spread _ => true | _ => false)

/-! ## Widget AST and tag classification -/

/-- The two widget kinds the tag classifier distinguishes. -/
inductive NodeKind where
  | component
  | primitive
  deriving DecidableEq, Repr

/-- Modelled from the spec: purely lexical tag classification — an identifier
whose first character is uppercase denotes a component, every other
identifier a primitive (`tags.rs` / `widget.rs` are not under `src/`). -/
def classify (t : String) : NodeKind :=
  match t.data with
  | [] => NodeKind.primitive
  | c :: _ => if c.isUpper then NodeKind.component else NodeKind.primitive

/-- Modelled from the spec: the widget AST. A child item is a nested widget,
an opaque embedded host expression, a conditional block (guard + inner item)
or an iteration block (source + per-element item); `widget.rs`, `child.rs`
and `children.rs` are not under `src/`. Guards and iteration sources are
opaque host expressions, modelled as `Nat`. -/
inductive Node where
  | widget (tag : String) (attributes : List AttrEntry) (children : List Node)
  | expression (e : Nat)
  | conditional (g : Nat) (inner : Node)
  | iteration (src : Nat) (inner : Node)

/-- Modelled from the spec: assembling a parsed widget node runs the
attribute binder and fails with its `SyntaxError` on duplicate named keys;
the node keeps its ordered attribute entry list. -/
def mkNode (tag : String) (attrs : List AttrEntry) (children : List Node) :
    Except ParseError Node :=
  match bindAttributes attrs with
  | Except.ok _ => Except.ok (Node.widget tag attrs children)
  | Except.error e => Except.error e

/-- Generation-time errors (unresolved identifiers and the like). -/
inductive GenError where
  | generationError
  deriving DecidableEq, Repr

mutual

/-- Modelled from the spec: generation-time tag resolution — every component
tag must be defined in the host environment `defs`; primitives resolve
unconditionally. -/
def resolveNode (defs : String → Bool) : Node → Bool
  | Node.widget t _ cs =>
      (if classify t = NodeKind.component then defs t else true) && resolveList defs cs
  | Node.expression _ => true
  | Node.conditional _ inner => resolveNode defs inner
  | Node.iteration _ inner => resolveNode defs inner

/-- Generation-time tag resolution over a child sequence. -/
def resolveList (defs : String → Bool) : List Node → Bool
  | [] => true
  | c :: cs => resolveNode defs c && resolveList defs cs

end

/-! ## Tree code generation -/

/-- A statement of the emitted construction program. -/
inductive Stmt where
  | contextInit
  | letParent (p : Option Nat)
  | letChildren (c : Option Nat)
  | props (id : Nat) (tag : String)
  | construct (id : Nat) (tag : String)
  | registerChild (id : Nat)
  | splice (e : Nat)
  | guardOpen (g : Nat)
  | guardClose
  | loopOpen (src : Nat)
  | loopClose
  | commit
  deriving DecidableEq, Repr

mutual

/-- Modelled from the spec: post-order code generation (`widget.rs` /
`widget_builder.rs` are not under `src/`). Children are generated first;
a component node then emits its properties-structure literal followed by its
construction statement, a primitive node emits a direct construction
statement; with `reg` set the freshly constructed node registers itself into
the pending-children accumulator. Conditionals wrap the inner statements in
a guarded branch, iterations in a loop; expressions are spliced verbatim.
`n` is the fresh-identifier counter; the result is the next counter and the
emitted statements. -/
def genNode (reg : Bool) : Node → Nat → Nat × List Stmt
  | Node.widget t _ cs, n =>
      let r := genList reg cs n
      (r.1 + 1,
        r.2 ++ (if classify t = NodeKind.component then [Stmt.props r.1 t] else []) ++
          [Stmt.construct r.1 t] ++ (if reg then [Stmt.registerChild r.1] else []))
  | Node.expression e, n => (n, [Stmt.splice e])
  | Node.conditional g inner, n =>
      let r := genNode reg inner n
      (r.1, [Stmt.guardOpen g] ++ r.2 ++ [Stmt.guardClose])
  | Node.iteration src inner, n =>
      let r := genNode reg inner n
      (r.1, [Stmt.loopOpen src] ++ r.2 ++ [Stmt.loopClose])

/-- Code generation over a child sequence, threading the fresh counter in
declaration order. -/
def genList (reg : Bool) : List Node → Nat → Nat × List Stmt
  | [], n => (n, [])
  | c :: cs, n =>
      let r1 := genNode reg c n
      let r2 := genList reg cs r1.1
      (r2.1, r1.2 ++ r2.2)

end

/-- The `rsx!` entry point (from `src/kayak_render_macros/src/lib.rs`): the
widget program alone, with neither context initialization nor commit. -/
def rsxStmts (x : Node) : List Stmt := (genNode true x 0).2

/-- The `render!` entry point (from `src/kayak_render_macros/src/lib.rs`):
context initialization with parent identifier and children accumulator both
`None`, then the widget program, then a single trailing commit. -/
def renderStmts (x : Node) : List Stmt :=
  [Stmt.contextInit, Stmt.letParent none, Stmt.letChildren none] ++ rsxStmts x ++ [Stmt.commit]

/-- The `constructor!` entry point: `src/kayak_render_macros/src/lib.rs`
emits the widget of the parsed `ConstructedWidget`; modelled from the spec
(`widget.rs` is not under `src/`), that widget's program carries only the
construction statements, with no context interaction. -/
def constructorStmts (x : Node) : List Stmt := (genNode false x 0).2

/-- Modelled from the spec: generation fails with a `GenerationError` when a
component tag does not resolve in the host environment; parse-time code never
consults the environment. -/
def generate (defs : String → Bool) (x : Node) : Except GenError (List Stmt) :=
  if resolveNode defs x then Except.ok (genNode true x 0).2 else Except.error GenError.generationError

/-- The tag carried by a construction statement, when there is one. -/
def constructTagOf : Stmt → Option String
  | Stmt.construct _ t => some t
  | _ => none

/-- The tags of the construction statements of a program, in emission
order. -/
def constructTags (l : List Stmt) : List String := l.filterMap constructTagOf

mutual

/-- The post-order listing of the widget tags of a tree: each node appears
exactly once, strictly after all of its descendants (expressions are opaque
and contribute nothing). -/
def postTags : Node → List String
  | Node.widget t _ cs => postTagsList cs ++ [t]
  | Node.expression _ => []
  | Node.conditional _ inner => postTags inner
  | Node.iteration _ inner => postTags inner

/-- Post-order tag listing of a child sequence, in declaration order. -/
def postTagsList : List Node → List String
  | [] => []
  | c :: cs => postTags c ++ postTagsList cs

end

/-- Whether a statement touches the render context (initialization, the
parent/children bindings, child registration, or the final commit). -/
def Stmt.isContextInteraction : Stmt → Bool
  | Stmt.contextInit => true
  | Stmt.letParent _ => true
  | Stmt.letChildren _ => true
  | Stmt.registerChild _ => true
  | Stmt.commit => true
  | _ => false

/-- Whether a statement is a child registration. -/
def Stmt.isRegister : Stmt → Bool
  | Stmt.registerChild _ => true
  | _ => false

/-- Whether a statement survives in construction-only mode (everything except
a child registration). -/
def Stmt.isKept : Stmt → Bool
  | Stmt.registerChild _ => false
  | _ => true

/-! ## Hook macros: state bindings and effects -/

/-- Modelled from the spec: a binding handle is an identifier of a state cell
owned by the render context; duplicating the handle copies the identifier,
not the value (`kayak_core` is not under `src/`). -/
structure Binding where
  idx : Nat
  deriving DecidableEq, Repr

/-- Modelled from the spec: a state cell holds a current value and a
monotonically increasing version. State values are modelled as `Nat`. -/
structure StateCell where
  value : Nat
  version : Nat
  deriving DecidableEq, Repr

/-- Modelled from the spec: a registered effect — an opaque callback
(identified by a `Nat`), the duplicated dependency handles, and the
dependency versions observed at the last run (`use_effect.rs` and the
`kayak_core` scheduler are not under `src/`). -/
structure Effect where
  cb : Nat
  deps : List Binding
  lastVersions : List Nat
  deriving DecidableEq, Repr

/-- Modelled from the spec: the render context owns the state cells and the
effect queue; `runLog` records every effect run, in order, together with the
dependency values the callback reads at run time. -/
structure KayakContext where
  cells : List StateCell
  effects : List Effect
  runLog : List (Nat × List Nat)
  deriving DecidableEq, Repr

/-- The empty render context. -/
def KayakContext.empty : KayakContext := ⟨[], [], []⟩

/-- Modelled from the spec: `create_state` allocates a fresh cell seeded with
the initial value at version 0 and returns its handle; the runtime contract
makes the result optional. -/
def KayakContext.create_state (ctx : KayakContext) (initial : Nat) :
    Option (Binding × KayakContext) :=
  some (⟨ctx.cells.length⟩, { ctx with cells := ctx.cells ++ [⟨initial, 0⟩] })

/-- The cell a binding handle refers to. -/
def KayakContext.getCell (ctx : KayakContext) (b : Binding) : StateCell :=
  ctx.cells.getD b.idx ⟨0, 0⟩

/-- Modelled from the spec: `Bound::get` reads the current value. -/
def KayakContext.get (ctx : KayakContext) (b : Binding) : Nat := (ctx.getCell b).value

/-- Modelled from the spec: reading a binding's version. -/
def KayakContext.version (ctx : KayakContext) (b : Binding) : Nat := (ctx.getCell b).version

/-- Modelled from the spec: duplicating a binding duplicates the handle, not
the value. -/
def Binding.clone (b : Binding) : Binding := b

/-- Modelled from the spec: `MutableBound::set` updates the cell's value and
advances its version by one; it runs no effect and touches nothing else. -/
def KayakContext.set (ctx : KayakContext) (b : Binding) (v : Nat) : KayakContext :=
  { ctx with cells := ctx.cells.set b.idx ⟨v, (ctx.getCell b).version + 1⟩ }

/-- Modelled from the spec: `use_effect` registers the callback at the back
of the queue with duplicated dependency handles and the currently observed
dependency versions; nothing runs at registration time. -/
def KayakContext.use_effect (ctx : KayakContext) (cb : Nat) (deps : List Binding) :
    KayakContext :=
  { ctx with
    effects := ctx.effects ++
      [⟨cb, deps.map Binding.clone, deps.map (fun b => ctx.version b)⟩] }

/-- Modelled from the spec: `commit` drains the effect queue once, in
registration order, running exactly the effects for which some dependency
version has advanced since their last run; each run logs the callback and the
dependency values it reads at run time, and the effect's observed versions
are brought up to date. -/
def KayakContext.commit (ctx : KayakContext) : KayakContext :=
  let step := fun (acc : List Effect × List (Nat × List Nat)) (e : Effect) =>
    let cur := e.deps.map (fun b => (ctx.cells.getD b.idx ⟨0, 0⟩).version)
    if cur = e.lastVersions then (acc.1 ++ [e], acc.2)
    else
      (acc.1 ++ [{ e with lastVersions := cur }],
        acc.2 ++ [(e.cb, e.deps.map (fun b => (ctx.cells.getD b.idx ⟨0, 0⟩).value))])
  let r := ctx.effects.foldl step ([], [])
  { ctx with effects := r.1, runLog := ctx.runLog ++ r.2 }

/-- Outcome of running an expanded macro body: a value, or an abort through
the panic of an unconditional unwrap. -/
inductive MacroResult (α : Type) where
  | ok (a : α)
  | panicked

/-- The value an expanded `use_state!` evaluates to: the current value, the
setter closure, the binding handle, and the updated context. -/
abbrev UseStateResult := Nat × (Nat → KayakContext → KayakContext) × Binding × KayakContext

/-- The body of the `use_state!` expansion from
`src/kayak_render_macros/src/lib.rs`, abstracted over the result of the
`context.create_state(initial)` call it unconditionally unwraps: a `none`
result panics; otherwise the state handle is cloned, the setter closure sets
through the cloned handle, and the expansion evaluates to
`(state.get(), set_state, state)`. -/
def use_state_gen (created : Option (Binding × KayakContext)) : MacroResult UseStateResult :=
  match created with
  | none => MacroResult.panicked
  | some (state, ctx) =>
      let cloned_state := state.clone
      let set_state := fun value c => KayakContext.set c cloned_state value
      let state_value := ctx.get state
      MacroResult.ok (state_value, set_state, state, ctx)

/-- The `use_state!` expansion (from `src/kayak_render_macros/src/lib.rs`):
calls `context.create_state(initial)` and unwraps the result. -/
def use_state (ctx : KayakContext) (initial : Nat) : MacroResult UseStateResult :=
  use_state_gen (ctx.create_state initial)

/-! ## Further definitions: entry-point scenarios and the widget macro -/

/-- The statement kinds a widget program may contain: never context
initialization, the parent/children bindings or a commit; a child
registration only when `reg` is set. -/
def allowedStmt (reg : Bool) : Stmt → Bool
  | Stmt.contextInit => false
  | Stmt.letParent _ => false
  | Stmt.letChildren _ => false
  | Stmt.commit => false
  | Stmt.registerChild _ => reg
  | _ => true

/-- The full `render!` expansion of a single markup node: parse the node
(binding its attributes), then emit the render-mode program; a parse failure
aborts the expansion with its error and yields no program. -/
def renderMacro (tag : String) (attrs : List AttrEntry) (children : List Node) :
    Except ParseError (List Stmt) :=
  (mkNode tag attrs children).map renderStmts

/-- The configuration flag set consumed by the `widget` attribute macro;
modelled from the spec (`function_component.rs` is not under `src/`), the
default configuration has the focusable capability disabled. -/
structure WidgetArguments where
  focusable : Bool := false
  deriving DecidableEq, Repr

/-- The characters of the flag name `focusable`. -/
def focusableChars : List Char := ['f', 'o', 'c', 'u', 's', 'a', 'b', 'l', 'e']

/-- Substring containment on token text, as Rust's `str::contains` checks
it: the pattern occurs contiguously inside the haystack. -/
def strContains (hay pat : List Char) : Bool := decide (pat <:+: hay)

/-- The token text of a flag set, as the stringified comma-separated
argument list of the attribute macro renders it. -/
def stringifyFlags (fs : List (List Char)) : List Char :=
  (fs.intersperse [',', ' ']).flatten

/-- The argument handling of the `widget` attribute macro from
`src/kayak_render_macros/src/lib.rs`: with an empty argument list the
default configuration is kept; otherwise `focusable` is set to whether the
stringified arguments contain the substring `focusable`. -/
def parseWidgetArgs (args : List Char) : WidgetArguments :=
  if args.isEmpty then {} else { focusable := strContains args focusableChars }

/-- Scenario: `create_state(initial)` on the empty context (the expansion of
`use_state(initial)` in a fresh component instance). -/
def demoState (initial : Nat) : Binding × KayakContext :=
  (KayakContext.empty.create_state initial).getD (⟨0⟩, KayakContext.empty)

/-- Scenario: one effect depending on the freshly created binding. -/
def demoEffect (initial cb : Nat) : KayakContext :=
  (demoState initial).2.use_effect cb [(demoState initial).1]

/-- Scenario: the dependency's setter is invoked with `v` after
registration. -/
def demoEffectSet (initial v cb : Nat) : KayakContext :=
  (demoEffect initial cb).set (demoState initial).1 v

/-- Scenario: the next commit after the dependency changed. -/
def demoEffectCommit (initial v cb : Nat) : KayakContext :=
  (demoEffectSet initial v cb).commit

/-- Scenario: two effects registered in order on the same binding. -/
def demoTwoEffects (initial cb1 cb2 : Nat) : KayakContext :=
  ((demoState initial).2.use_effect cb1 [(demoState initial).1]).use_effect cb2
    [(demoState initial).1]

/-- Scenario: the two effects' dependency changes and the context commits. -/
def demoTwoEffectsCommit (initial v cb1 cb2 : Nat) : KayakContext :=
  ((demoTwoEffects initial cb1 cb2).set (demoState initial).1 v).commit

/-! ## Lemmas on the attribute binder -/

theorem lookupA_nil (k : String) : lookupA [] k = none := rfl

theorem lookupA_cons (a : String × AttrValue) (m : List (String × AttrValue)) (k : String) :
    lookupA (a :: m) k = if a.1 = k then some a.2 else lookupA m k := by
  by_cases h : a.1 = k
  · simp [lookupA, List.find?_cons_of_pos, h]
  · simp [lookupA, List.find?_cons_of_neg, h]

theorem lookupA_setKey (m : List (String × AttrValue)) (k : String) (v : AttrValue)
    (k' : String) :
    lookupA (setKey m k v) k' = if k' = k then some v else lookupA m k' := by
  induction m with
  | nil =>
      rw [setKey, lookupA_cons]
      by_cases h : k' = k
      · simp [h]
      · simp [h, Ne.symm h]
  | cons a rest ih =>
      by_cases ha : a.1 = k
      · rw [setKey, if_pos ha, lookupA_cons, lookupA_cons]
        by_cases h : k' = k
        · simp [h]
        · have h3 : ¬ a.1 = k' := fun he => h ((he.symm.trans ha))
          simp [h, Ne.symm h, h3]
      · rw [setKey, if_neg ha, lookupA_cons, lookupA_cons, ih]
        by_cases h : k' = k
        · subst h
          simp [ha]
        · simp [h]

theorem lookupA_foldl_setKey (fs : List (String × AttrValue))
    (acc : List (String × AttrValue)) (k : String) :
    lookupA (fs.foldl (fun a p => setKey a p.1 p.2) acc) k =
      oor (lastFieldValue fs k) (lookupA acc k) := by
  induction fs generalizing acc with
  | nil => cases h : lookupA acc k <;> simp [lastFieldValue, oor, h]
  | cons p rest ih =>
      simp only [List.foldl_cons, lastFieldValue]
      rw [ih, lookupA_setKey]
      cases hl : lastFieldValue rest k <;> by_cases h : p.1 = k <;>
        first
          | simp [oor, h, Ne.symm h]
          | simp [oor, h]

theorem lookupA_mergeSpreads (es : List AttrEntry) (acc : List (String × AttrValue))
    (k : String) :
    lookupA (mergeSpreads es acc) k = oor (lastSpreadValue es k) (lookupA acc k) := by
  induction es generalizing acc with
  | nil => simp [mergeSpreads, lastSpreadValue, oor]
  | cons e rest ih =>
      cases e with
      | spread fs =>
          simp only [mergeSpreads, lastSpreadValue]
          rw [ih, lookupA_foldl_setKey]
          cases lastSpreadValue rest k <;> cases lastFieldValue fs k <;> simp [oor]
      | named k' v =>
          simp only [mergeSpreads, lastSpreadValue]
          exact ih acc

theorem applyNamed_ok_not_seen {es : List AttrEntry} {i : Nat}
    {acc : List (String × AttrValue)} {seen : List String}
    {m : List (String × AttrValue)}
    (h : applyNamed es i acc seen = Except.ok m) :
    ∀ k ∈ seen, namedValue es k = none := by
  induction es generalizing i acc seen with
  | nil => intro k _; rfl
  | cons e rest ih =>
      cases e with
      | spread fs =>
          intro k hk
          simp only [applyNamed] at h
          simpa [namedValue] using ih h k hk
      | named k' v =>
          intro k hk
          simp only [applyNamed] at h
          by_cases hk' : k' ∈ seen
          · simp [hk'] at h
          · simp only [hk', if_neg, if_false] at h
            have hrest := ih h k (List.mem_cons_of_mem _ hk)
            have hne : k' ≠ k := fun he => hk' (he ▸ hk)
            simp [namedValue, hne, hrest]

theorem applyNamed_ok_nodup {es : List AttrEntry} {i : Nat}
    {acc : List (String × AttrValue)} {seen : List String}
    {m : List (String × AttrValue)}
    (h : applyNamed es i acc seen = Except.ok m) :
    (namedKeys es).Nodup ∧ ∀ k ∈ namedKeys es, k ∉ seen := by
  induction es generalizing i acc seen with
  | nil => simp [namedKeys]
  | cons e rest ih =>
      cases e with
      | spread fs =>
          simp only [applyNamed] at h
          simpa [namedKeys] using ih h
      | named k' v =>
          simp only [applyNamed] at h
          by_cases hk' : k' ∈ seen
          · simp [hk'] at h
          · simp only [hk', if_neg, if_false] at h
            obtain ⟨hnd, hdisj⟩ := ih h
            refine ⟨?_, ?_⟩
            · simp only [namedKeys, List.nodup_cons]
              exact ⟨fun hmem => (hdisj k' hmem) (List.mem_cons_self _ _), hnd⟩
            · intro k hk
              simp only [namedKeys, List.mem_cons] at hk
              cases hk with
              | inl he => exact he ▸ hk'
              | inr hmem =>
                  intro hseen
                  exact (hdisj k hmem) (List.mem_cons_of_mem _ hseen)

theorem applyNamed_ok_of_nodup {es : List AttrEntry} (i : Nat)
    (acc : List (String × AttrValue)) (seen : List String)
    (hd : (namedKeys es).Nodup) (hdisj : ∀ k ∈ namedKeys es, k ∉ seen) :
    ∃ m, applyNamed es i acc seen = Except.ok m := by
  induction es generalizing i acc seen with
  | nil => exact ⟨acc, rfl⟩
  | cons e rest ih =>
      cases e with
      | spread fs =>
          simp only [applyNamed]
          exact ih (i + 1) acc seen (by simpa [namedKeys] using hd)
            (by simpa [namedKeys] using hdisj)
      | named k' v =>
          have hk' : k' ∉ seen := hdisj k' (by simp [namedKeys])
          simp only [namedKeys, List.nodup_cons] at hd
          simp only [applyNamed, hk', if_neg, if_false]
          refine ih (i + 1) (setKey acc k' v) (k' :: seen) hd.2 ?_
          intro k hk
          simp only [List.mem_cons]
          push_neg
          refine ⟨fun he => hd.1 (he ▸ hk), ?_⟩
          exact hdisj k (by simp [namedKeys, hk])

theorem lookupA_applyNamed {es : List AttrEntry} {i : Nat}
    {acc : List (String × AttrValue)} {seen : List String}
    {m : List (String × AttrValue)}
    (h : applyNamed es i acc seen = Except.ok m) (k : String) :
    lookupA m k = oor (namedValue es k) (lookupA acc k) := by
  induction es generalizing i acc seen with
  | nil =>
      simp only [applyNamed, Except.ok.injEq] at h
      subst h
      cases lookupA acc k <;> simp [namedValue, oor]
  | cons e rest ih =>
      cases e with
      | spread fs =>
          simp only [applyNamed] at h
          simpa [namedValue] using ih h
      | named k' v =>
          simp only [applyNamed] at h
          by_cases hk' : k' ∈ seen
          · simp [hk'] at h
          · simp only [hk', if_neg, if_false] at h
            have hrest := ih h
            by_cases hkk : k' = k
            · subst hkk
              have hnone := applyNamed_ok_not_seen h k' (List.mem_cons_self _ _)
              rw [hrest, hnone, lookupA_setKey]
              simp [namedValue, oor]
            · rw [hrest, lookupA_setKey]
              have : k ≠ k' := fun he => hkk he.symm
              simp [namedValue, hkk, this, oor]

theorem bindAttributes_ok_lookup {es : List AttrEntry} {m : List (String × AttrValue)}
    (h : bindAttributes es = Except.ok m) (k : String) :
    lookupA m k = specLookup es k := by
  have h' := lookupA_applyNamed h k
  rw [h', lookupA_mergeSpreads]
  simp only [lookupA_nil, specLookup]
  cases namedValue es k <;> cases lastSpreadValue es k <;> simp [oor]

theorem bindAttributes_ok_nodup {es : List AttrEntry} {m : List (String × AttrValue)}
    (h : bindAttributes es = Except.ok m) : (namedKeys es).Nodup :=
  (applyNamed_ok_nodup h).1

theorem bindAttributes_error_of_dup {es : List AttrEntry}
    (hd : ¬ (namedKeys es).Nodup) :
    ∃ i, bindAttributes es = Except.error (ParseError.syntaxError i) := by
  cases hb : bindAttributes es with
  | ok m => exact absurd (bindAttributes_ok_nodup hb) hd
  | error e => cases e with | syntaxError i => exact ⟨i, rfl⟩

theorem bindAttributes_ok_of_nodup {es : List AttrEntry}
    (hd : (namedKeys es).Nodup) : ∃ m, bindAttributes es = Except.ok m :=
  applyNamed_ok_of_nodup 0 (mergeSpreads es []) [] hd (by simp)

/-! ## Lemmas on the code generator -/

mutual

theorem allowed_genNode (reg : Bool) (x : Node) (n : Nat) :
    ∀ s ∈ (genNode reg x n).2, allowedStmt reg s = true := by
  cases x with
  | widget t a cs =>
      intro s hs
      simp only [genNode, List.mem_append] at hs
      rcases hs with ((hs | hs) | hs) | hs
      · exact allowed_genList reg cs n s hs
      · by_cases hc : classify t = NodeKind.component
        · simp only [hc, if_true, List.mem_singleton] at hs
          subst hs; rfl
        · simp [hc] at hs
      · simp only [List.mem_singleton] at hs
        subst hs; rfl
      · cases reg with
        | false => simp at hs
        | true =>
            simp at hs
            subst hs; rfl
  | expression e =>
      intro s hs
      simp only [genNode, List.mem_singleton] at hs
      subst hs; rfl
  | conditional g inner =>
      intro s hs
      simp only [genNode, List.mem_append, List.mem_singleton] at hs
      rcases hs with (hs | hs) | hs
      · subst hs; rfl
      · exact allowed_genNode reg inner n s hs
      · subst hs; rfl
  | iteration src inner =>
      intro s hs
      simp only [genNode, List.mem_append, List.mem_singleton] at hs
      rcases hs with (hs | hs) | hs
      · subst hs; rfl
      · exact allowed_genNode reg inner n s hs
      · subst hs; rfl

theorem allowed_genList (reg : Bool) (cs : List Node) (n : Nat) :
    ∀ s ∈ (genList reg cs n).2, allowedStmt reg s = true := by
  cases cs with
  | nil => intro s hs; simp [genList] at hs
  | cons c rest =>
      intro s hs
      simp only [genList, List.mem_append] at hs
      rcases hs with hs | hs
      · exact allowed_genNode reg c n s hs
      · exact allowed_genList reg rest ((genNode reg c n).1) s hs

end

mutual

theorem genNode_modes (x : Node) (n : Nat) :
    genNode false x n =
      ((genNode true x n).1, (genNode true x n).2.filter Stmt.isKept) := by
  cases x with
  | widget t a cs =>
      have h := genList_modes cs n
      by_cases hc : classify t = NodeKind.component <;>
        simp [genNode, h, hc, List.filter_append, Stmt.isKept]
  | expression e => simp [genNode, Stmt.isKept]
  | conditional g inner =>
      have h := genNode_modes inner n
      simp [genNode, h, List.filter_append, Stmt.isKept]
  | iteration src inner =>
      have h := genNode_modes inner n
      simp [genNode, h, List.filter_append, Stmt.isKept]

theorem genList_modes (cs : List Node) (n : Nat) :
    genList false cs n =
      ((genList true cs n).1, (genList true cs n).2.filter Stmt.isKept) := by
  cases cs with
  | nil => simp [genList]
  | cons c rest =>
      have h1 := genNode_modes c n
      have h2 := genList_modes rest ((genNode true c n).1)
      simp [genList, h1, h2, List.filter_append]

end

mutual

theorem ctags_genNode (x : Node) (n : Nat) :
    constructTags (genNode true x n).2 = postTags x := by
  cases x with
  | widget t a cs =>
      have h := ctags_genList cs n
      simp only [constructTags] at h ⊢
      by_cases hc : classify t = NodeKind.component <;>
        simp [genNode, postTags, List.filterMap_append, constructTagOf, hc, h]
  | expression e => simp [genNode, postTags, constructTags, constructTagOf]
  | conditional g inner =>
      have h := ctags_genNode inner n
      simp only [constructTags] at h ⊢
      simp [genNode, postTags, List.filterMap_append, constructTagOf, h]
  | iteration src inner =>
      have h := ctags_genNode inner n
      simp only [constructTags] at h ⊢
      simp [genNode, postTags, List.filterMap_append, constructTagOf, h]

theorem ctags_genList (cs : List Node) (n : Nat) :
    constructTags (genList true cs n).2 = postTagsList cs := by
  cases cs with
  | nil => simp [genList, postTagsList, constructTags]
  | cons c rest =>
      have h1 := ctags_genNode c n
      have h2 := ctags_genList rest ((genNode true c n).1)
      simp only [constructTags] at h1 h2 ⊢
      simp [genList, postTagsList, List.filterMap_append, h1, h2]

end

/-- A register-free filter leaves the construction tags unchanged. -/
theorem ctags_filter_register (l : List Stmt) :
    constructTags (l.filter Stmt.isKept) = constructTags l := by
  simp only [constructTags]
  induction l with
  | nil => rfl
  | cons s rest ih =>
      cases s <;> simp [List.filter_cons, Stmt.isKept, constructTagOf, ih]

/-! ## Claim theorems -/

/-- C2: attributes are collected left to right; all spread entries are
expanded and merged first in encounter order, a key from a later spread
overriding the same key from an earlier spread, and literal/named attributes
are applied on top: whenever binding succeeds, the bound value of every key
equals the declarative lookup (named value first, otherwise the last spread
value). In particular, spread `{a:1,b:2}` followed by spread `{b:3}`
followed by literal `a=9` binds exactly `{a:9, b:3}`. -/
theorem attribute_merge_order :
    (∀ es m k, bindAttributes es = Except.ok m → lookupA m k = specLookup es k) ∧
    bindAttributes
        [AttrEntry.spread [("a", AttrValue.literal 1), ("b", AttrValue.literal 2)],
          AttrEntry.spread [("b", AttrValue.literal 3)],
          AttrEntry.named "a" (AttrValue.literal 9)] =
      Except.ok [("a", AttrValue.literal 9), ("b", AttrValue.literal 3)] :=
  ⟨fun _ _ k h => bindAttributes_ok_lookup h k, rfl⟩

/-- Witness for `attribute_merge_order` at the spec's example input: the
bound value of `b` is the declarative one. -/
theorem attribute_merge_order_witness :
    lookupA [("a", AttrValue.literal 9), ("b", AttrValue.literal 3)] "b" =
      specLookup
        [AttrEntry.spread [("a", AttrValue.literal 1), ("b", AttrValue.literal 2)],
          AttrEntry.spread [("b", AttrValue.literal 3)],
          AttrEntry.named "a" (AttrValue.literal 9)] "b" :=
  attribute_merge_order.1 _ _ "b" attribute_merge_order.2

/-- C6: declaring the same literal/named attribute key twice on one node is
a `SyntaxError` detected by the attribute binder during parsing, reported at
the span of the offending (re-declaring) entry, and fatal to the surrounding
expansion: the `render` expansion propagates the error and yields no
construction program; this holds for every duplicate key, not only the
example `x=1 x=2`. -/
theorem duplicate_attribute_error :
    bindAttributes
        [AttrEntry.named "x" (AttrValue.literal 1),
          AttrEntry.named "x" (AttrValue.literal 2)] =
      Except.error (ParseError.syntaxError 1) ∧
    renderMacro "foo"
        [AttrEntry.named "x" (AttrValue.literal 1),
          AttrEntry.named "x" (AttrValue.literal 2)] [] =
      Except.error (ParseError.syntaxError 1) ∧
    (∀ es, ¬ (namedKeys es).Nodup →
      ∃ i, bindAttributes es = Except.error (ParseError.syntaxError i)) ∧
    (∀ tag attrs children e, bindAttributes attrs = Except.error e →
      renderMacro tag attrs children = Except.error e) := by
  refine ⟨rfl, rfl, fun es hd => bindAttributes_error_of_dup hd, ?_⟩
  intro tag attrs children e he
  simp [renderMacro, mkNode, he, Except.map]

/-- Witness for `duplicate_attribute_error`: the duplicate key `y` aborts
the whole `render` expansion with the error at span 1. -/
theorem duplicate_attribute_error_witness :
    renderMacro "bar"
        [AttrEntry.named "y" (AttrValue.literal 1),
          AttrEntry.named "y" (AttrValue.literal 2)] [] =
      Except.error (ParseError.syntaxError 1) :=
  duplicate_attribute_error.2.2.2 "bar"
    [AttrEntry.named "y" (AttrValue.literal 1),
      AttrEntry.named "y" (AttrValue.literal 2)] []
    (ParseError.syntaxError 1) rfl

/-- C7 counterexample: a node carrying two spread attributes parses
successfully and keeps both spreads, so a parsed widget node does not carry
at most one spread attribute. -/
theorem single_spread_counterexample :
    mkNode "foo"
        [AttrEntry.spread [("a", AttrValue.literal 1)],
          AttrEntry.spread [("b", AttrValue.literal 2)]] [] =
      Except.ok
        (Node.widget "foo"
          [AttrEntry.spread [("a", AttrValue.literal 1)],
            AttrEntry.spread [("b", AttrValue.literal 2)]] []) ∧
    spreadCount
        [AttrEntry.spread [("a", AttrValue.literal 1)],
          AttrEntry.spread [("b", AttrValue.literal 2)]] = 2 :=
  ⟨rfl, rfl⟩

/-- C7 amended: a parsed widget node may carry any number of spread
attributes — parsing succeeds whenever the named keys are distinct — the
spreads are merged before the named attributes are applied, and a named
attribute is never silently overwritten by a spread: a key with a named
declaration always binds to that named value. -/
theorem single_spread_amended :
    (∀ tag attrs children, (namedKeys attrs).Nodup →
      ∃ w, mkNode tag attrs children = Except.ok w) ∧
    (∀ es m k v, bindAttributes es = Except.ok m → namedValue es k = some v →
      lookupA m k = some v) := by
  constructor
  · intro tag attrs children hd
    obtain ⟨m, hm⟩ := bindAttributes_ok_of_nodup hd
    exact ⟨Node.widget tag attrs children, by simp [mkNode, hm]⟩
  · intro es m k v hok hnv
    rw [bindAttributes_ok_lookup hok k]
    simp [specLookup, hnv, oor]

/-- Witness for `single_spread_amended`: with two spreads and the named
attribute `a=9`, the bound value of `a` is the named one. -/
theorem single_spread_amended_witness :
    lookupA [("a", AttrValue.literal 9), ("b", AttrValue.literal 3)] "a" =
      some (AttrValue.literal 9) :=
  single_spread_amended.2
    [AttrEntry.spread [("a", AttrValue.literal 1), ("b", AttrValue.literal 2)],
      AttrEntry.spread [("b", AttrValue.literal 3)],
      AttrEntry.named "a" (AttrValue.literal 9)]
    [("a", AttrValue.literal 9), ("b", AttrValue.literal 3)]
    "a" (AttrValue.literal 9) rfl rfl

/-- C1: the three entry points produce the three generation modes. The
`render` expansion wraps the widget program with context initialization in
which the parent identifier and the children accumulator are both `None`
before the first node and emits exactly one trailing commit; the `rsx`
expansion is the widget program alone, containing neither the initialization
nor a commit; the `constructor` expansion contains no context interaction at
all and consists of the same construction statements as the `rsx` program. -/
theorem generation_modes (x : Node) :
    renderStmts x =
      [Stmt.contextInit, Stmt.letParent none, Stmt.letChildren none] ++
        rsxStmts x ++ [Stmt.commit] ∧
    (renderStmts x).count Stmt.commit = 1 ∧
    Stmt.contextInit ∉ rsxStmts x ∧
    Stmt.commit ∉ rsxStmts x ∧
    (∀ p, Stmt.letParent p ∉ rsxStmts x) ∧
    (∀ c, Stmt.letChildren c ∉ rsxStmts x) ∧
    (∀ s ∈ constructorStmts x, s.isContextInteraction = false) ∧
    constructTags (constructorStmts x) = constructTags (rsxStmts x) := by
  have hallow : ∀ s ∈ rsxStmts x, allowedStmt true s = true :=
    fun s hs => allowed_genNode true x 0 s hs
  have hcommit : Stmt.commit ∉ rsxStmts x := by
    intro h
    simpa [allowedStmt] using hallow Stmt.commit h
  refine ⟨rfl, ?_, ?_, hcommit, ?_, ?_, ?_, ?_⟩
  · rw [renderStmts]
    simp [List.count_append, List.count_eq_zero.mpr hcommit, List.count_cons, List.count_nil]
  · intro h
    simpa [allowedStmt] using hallow Stmt.contextInit h
  · intro p h
    simpa [allowedStmt] using hallow (Stmt.letParent p) h
  · intro c h
    simpa [allowedStmt] using hallow (Stmt.letChildren c) h
  · intro s hs
    have ha : allowedStmt false s = true := allowed_genNode false x 0 s hs
    cases s <;> simp_all [allowedStmt, Stmt.isContextInteraction]
  · show constructTags (genNode false x 0).2 = constructTags (genNode true x 0).2
    rw [genNode_modes x 0]
    exact ctags_filter_register (genNode true x 0).2

/-- Witness for `generation_modes`: a construction statement of the
`constructor` program is no context interaction. -/
theorem generation_modes_witness :
    (Stmt.construct 0 "a").isContextInteraction = false :=
  (generation_modes (Node.widget "a" [] [])).2.2.2.2.2.2.1 (Stmt.construct 0 "a")
    (by decide)

/-- C3: Tree Codegen emits exactly one construction statement per widget
node of the tree (expressions are opaque and hide no node), in strict
post-order — the construction tags of the emitted program are exactly the
post-order tag listing of the tree — and for every widget node the program
is its children's statements (containing every child registration), then the
optional properties literal, then the node's own construction statement,
then its registration: each child registers into the pending-children
accumulator strictly before the parent's construction statement. -/
theorem tree_codegen_postorder :
    (∀ x n, constructTags (genNode true x n).2 = postTags x) ∧
    (∀ t a cs n,
      (genNode true (Node.widget t a cs) n).2 =
        ((genList true cs n).2 ++
            (if classify t = NodeKind.component
              then [Stmt.props (genList true cs n).1 t] else [])) ++
          [Stmt.construct (genList true cs n).1 t,
            Stmt.registerChild (genList true cs n).1] ∧
      ∀ j, Stmt.registerChild j ∈
          (genList true cs n).2 ++
            (if classify t = NodeKind.component
              then [Stmt.props (genList true cs n).1 t] else []) →
        Stmt.registerChild j ∈ (genList true cs n).2) := by
  refine ⟨fun x n => ctags_genNode x n, ?_⟩
  intro t a cs n
  constructor
  · by_cases hc : classify t = NodeKind.component <;> simp [genNode, hc]
  · intro j hj
    rcases List.mem_append.mp hj with h | h
    · exact h
    · by_cases hc : classify t = NodeKind.component <;> simp [hc] at h

/-- Witness for `tree_codegen_postorder`: in the program of a parent with
one child, the child's registration statement lies in the children's
section, before the parent's construction statement. -/
theorem tree_codegen_postorder_witness :
    Stmt.registerChild 0 ∈ (genList true [Node.widget "c" [] []] 0).2 :=
  (tree_codegen_postorder.2 "p" [] [Node.widget "c" [] []] 0).2 0 (by decide)

/-- C8: tag classification is total and purely lexical — an identifier
starting with an uppercase letter classifies as component and every other
identifier as primitive, independently of whether the identifier is defined;
a node with an undefined component tag parses successfully, and the
definition error surfaces at generation time (a `GenerationError`), while
generation succeeds once the tag resolves. -/
theorem tag_classification :
    (∀ t : String, classify t = NodeKind.component ∨ classify t = NodeKind.primitive) ∧
    (∀ t : String, classify t = NodeKind.component ↔
      ∃ c cs, t.data = c :: cs ∧ c.isUpper = true) ∧
    mkNode "Undefined" [] [] = Except.ok (Node.widget "Undefined" [] []) ∧
    generate (fun _ => false) (Node.widget "Undefined" [] []) =
      Except.error GenError.generationError ∧
    generate (fun _ => true) (Node.widget "Undefined" [] []) =
      Except.ok
        [Stmt.props 0 "Undefined", Stmt.construct 0 "Undefined", Stmt.registerChild 0] := by
  refine ⟨?_, ?_, rfl, ?_, ?_⟩
  · intro t
    cases h : classify t with
    | component => exact Or.inl rfl
    | primitive => exact Or.inr rfl
  · intro t
    cases hd : t.data with
    | nil => simp [classify, hd]
    | cons c cs =>
        by_cases hu : c.isUpper <;> simp [classify, hd, hu]
  · rfl
  · rfl

theorem getD_append_self (l : List StateCell) (c : StateCell) :
    (l ++ [c]).getD l.length ⟨0, 0⟩ = c := by
  simp [List.getD_eq_getElem?_getD, List.getElem?_append_right (Nat.le_refl _)]

theorem getD_set_append (l : List StateCell) (c x : StateCell) :
    ((l ++ [c]).set l.length x).getD l.length ⟨0, 0⟩ = x := by
  rw [List.getD_eq_getElem?_getD, List.getElem?_set_eq_of_lt]
  · rfl
  · simp

/-- C4: the `use_state` expansion evaluates to a triple of the binding's
current value, a setter closure that updates the binding's value, and the
binding handle itself; the fresh binding's current value is the initial
value, and after the setter is invoked with `v`, a subsequent read of the
same binding returns `v` and the binding's version has strictly increased by
one. -/
theorem use_state_contract (ctx : KayakContext) (initial v : Nat) :
    ∃ b ctx',
      use_state ctx initial =
        MacroResult.ok (ctx'.get b, fun value c => KayakContext.set c b value, b, ctx') ∧
      ctx'.get b = initial ∧
      (KayakContext.set ctx' b v).get b = v ∧
      (KayakContext.set ctx' b v).version b = ctx'.version b + 1 := by
  refine ⟨⟨ctx.cells.length⟩, { ctx with cells := ctx.cells ++ [⟨initial, 0⟩] },
    rfl, ?_, ?_, ?_⟩
  · simp [KayakContext.get, KayakContext.getCell, getD_append_self]
  · simp [KayakContext.get, KayakContext.set, KayakContext.getCell, getD_set_append]
  · simp [KayakContext.version, KayakContext.set, KayakContext.getCell,
      getD_set_append, getD_append_self]

/-- C5: `use_effect` captures each dependency by duplicating the binding
handle (never the value); registration and setter invocation run no callback
synchronously — the run log is untouched by both — the next commit after a
dependency's version advanced runs the callback exactly once, reading the
dependency's current value, a further commit without changes runs nothing,
and two effects triggered by the same commit run in registration order. -/
theorem use_effect_contract (initial v cb cb1 cb2 : Nat) :
    (∀ ctx c ds, (KayakContext.use_effect ctx c ds).runLog = ctx.runLog) ∧
    (∀ ctx b w, (KayakContext.set ctx b w).runLog = ctx.runLog) ∧
    (∀ b : Binding, b.clone = b) ∧
    (demoEffect initial cb).runLog = [] ∧
    (demoEffectSet initial v cb).runLog = [] ∧
    (demoEffectCommit initial v cb).runLog = [(cb, [v])] ∧
    (demoEffectCommit initial v cb).commit.runLog = [(cb, [v])] ∧
    (demoTwoEffectsCommit initial v cb1 cb2).runLog = [(cb1, [v]), (cb2, [v])] :=
  ⟨fun _ _ _ => rfl, fun _ _ _ => rfl, fun _ => rfl, rfl, rfl, rfl, rfl, rfl⟩

/-- C10: the `use_state` expansion calls `context.create_state(initial)` and
unconditionally unwraps the result: a failed creation aborts the generated
program with a panic rather than returning an error value, and whenever
creation succeeds the panic branch is unreachable — the expansion yields a
value. -/
theorem use_state_unwrap :
    (∀ ctx initial, use_state ctx initial = use_state_gen (ctx.create_state initial)) ∧
    use_state_gen none = MacroResult.panicked ∧
    (∀ st ctx, ∃ r, use_state_gen (some (st, ctx)) = MacroResult.ok r) ∧
    (∀ ctx initial, ∃ r, use_state ctx initial = MacroResult.ok r) :=
  ⟨fun _ _ => rfl, rfl, fun _ _ => ⟨_, rfl⟩, fun _ _ => ⟨_, rfl⟩⟩

theorem mem_intersperse {x sep : List Char} :
    ∀ {L : List (List Char)}, x ∈ L → x ∈ L.intersperse sep := by
  intro L
  induction L with
  | nil => intro h; simp at h
  | cons a t ih =>
      intro h
      cases t with
      | nil => simpa using h
      | cons b t2 =>
          rcases List.mem_cons.mp h with h | h
          · subst h
            exact List.mem_cons_self _ _
          · have hx : x ∈ (b :: t2).intersperse sep := ih h
            rw [show (a :: b :: t2).intersperse sep =
                a :: sep :: (b :: t2).intersperse sep from rfl]
            exact List.mem_cons_of_mem _ (List.mem_cons_of_mem _ hx)

/-- C9 counterexample: with the single flag `unfocusable` — a flag set that
does not contain the `focusable` flag — the `widget` attribute macro still
enables the focusable capability, because the emitted check is substring
containment on the stringified argument tokens. -/
theorem widget_focusable_counterexample :
    (parseWidgetArgs
        (stringifyFlags
          [['u', 'n', 'f', 'o', 'c', 'u', 's', 'a', 'b', 'l', 'e']])).focusable = true ∧
    focusableChars ∉ [['u', 'n', 'f', 'o', 'c', 'u', 's', 'a', 'b', 'l', 'e']] := by
  decide

/-- C9 amended: the `widget` attribute macro leaves the focusable capability
disabled (the default) when the argument list is empty; otherwise it sets it
to whether the stringified argument tokens contain `focusable` as a
substring — in particular it is enabled whenever the flag set contains the
`focusable` flag, but also for flags merely containing it, such as
`unfocusable`. -/
theorem widget_focusable_amended :
    (parseWidgetArgs []).focusable = false ∧
    (∀ args : List Char, args.isEmpty = false →
      (parseWidgetArgs args).focusable = strContains args focusableChars) ∧
    (∀ fs : List (List Char), focusableChars ∈ fs →
      (parseWidgetArgs (stringifyFlags fs)).focusable = true) := by
  refine ⟨rfl, ?_, ?_⟩
  · intro args h
    simp [parseWidgetArgs, h]
  · intro fs hmem
    have hinf : focusableChars <:+: stringifyFlags fs :=
      List.infix_of_mem_flatten (mem_intersperse hmem)
    have hne : (stringifyFlags fs).isEmpty = false := by
      have hlen := hinf.length_le
      cases hsf : stringifyFlags fs with
      | nil => rw [hsf] at hlen; simp [focusableChars] at hlen
      | cons a t => rfl
    simp [parseWidgetArgs, hne, strContains, hinf]

/-- Witness for `widget_focusable_amended`: a flag set that does contain the
`focusable` flag enables the capability. -/
theorem widget_focusable_amended_witness :
    (parseWidgetArgs (stringifyFlags [focusableChars, ['x']])).focusable = true :=
  widget_focusable_amended.2.2 [focusableChars, ['x']] (by decide)

end KayakSpec
